import Mathlib

/-!
Verification of the go-strftime library (`strftime.go`, compiled-formatter
variant).  The Go source is shallowly embedded: strings are lists of
characters, `time.Time` values restricted to the UTC location are a record
of calendar fields, Go's `time.Time.Format` is embedded for exactly the
layout constants the library passes to it, the two regular expressions are
embedded as deterministic leftmost scanners (the alternations have disjoint
first branches, so the scan is deterministic), and `fmt.Sprintf`
is embedded for the `%`-verbs reachable from the library's skeleton strings.
The float64 arithmetic in the `%j` directive is embedded exactly
(round-to-nearest-even binary64 over `ℚ`).
-/

set_option maxRecDepth 8192

namespace GoStrftime

/-- Go strings restricted to the ASCII templates the library manipulates. -/
abbrev Str := List Char

/-- Shorthand conversion from a Lean string literal. -/
def l (s : String) : Str := s.toList

/-! ## Character classes of the two regular expressions

`fmtRe      = %([%aAbBcdHIjmMpSUwWxXyYZ]|[1-9]n)`
`fmtBackquoteRe = %([^aAbBcdHIjmMpSUwWxXyYZ1-9]|[1-9][^n])`

(the character class of the second regexp is built in
`initFormatBackquoteRegexp` from the keys of the `formats` map;
map iteration order only permutes the class, the set is fixed). -/

/-- The single-letter directive codes: second characters of the keys of the
`formats` map. -/
def directiveChars : List Char :=
  ['a', 'A', 'b', 'B', 'c', 'd', 'H', 'I', 'j', 'm', 'M', 'p', 'S',
   'U', 'W', 'w', 'x', 'X', 'y', 'Y', 'Z']

def isDirectiveChar (c : Char) : Bool := directiveChars.contains c

/-- `[1-9]` in both regexps. -/
def isDigit19 (c : Char) : Bool := '1' ≤ c && c ≤ '9'

/-! ## The timestamp model

A `time.Time` in the UTC location, broken down into its calendar fields
(Go years start at 1; the library only reads the fields below). -/

structure Time where
  year : Nat
  month : Nat
  day : Nat
  hour : Nat
  minute : Nat
  sec : Nat
  nsec : Nat
  deriving DecidableEq, Repr

/-- Calendar validity of a timestamp (what `time.Date` produces for
in-range arguments). -/
def Time.Valid (t : Time) : Prop :=
  1 ≤ t.year ∧ 1 ≤ t.month ∧ t.month ≤ 12 ∧ 1 ≤ t.day ∧ t.day ≤ 31 ∧
  t.hour ≤ 23 ∧ t.minute ≤ 59 ∧ t.sec ≤ 59 ∧ t.nsec < 1000000000

instance (t : Time) : Decidable t.Valid := by
  unfold Time.Valid; infer_instance

/-! ## Proleptic Gregorian calendar arithmetic (Go `pkg/time`) -/

def isLeapYear (y : Nat) : Bool :=
  (y % 4 == 0 && y % 100 != 0) || y % 400 == 0

/-- Cumulative day counts before each month (non-leap year),
`daysBefore` in Go's time package. -/
def daysBeforeMonth (m : Nat) (leap : Bool) : Nat :=
  let base :=
    match m with
    | 1 => 0 | 2 => 31 | 3 => 59 | 4 => 90 | 5 => 120 | 6 => 151
    | 7 => 181 | 8 => 212 | 9 => 243 | 10 => 273 | 11 => 304 | 12 => 334
    | _ => 0
  if leap && m ≥ 3 then base + 1 else base

/-- Days from 0001-01-01 (day 0) to the given civil date. -/
def daysFromCivil (y m d : Nat) : Nat :=
  365 * (y - 1) + (y - 1) / 4 - (y - 1) / 100 + (y - 1) / 400
    + daysBeforeMonth m (isLeapYear y) + (d - 1)

/-- Absolute instant in nanoseconds since 0001-01-01T00:00:00 UTC;
this is the quantity Go's `Time.Before`/`Time.Sub`/`Time.Add` compare and
subtract (differences below stay far under the int64 saturation bound). -/
def absNanos (t : Time) : Int :=
  ((daysFromCivil t.year t.month t.day * 86400
    + t.hour * 3600 + t.minute * 60 + t.sec : Nat) : Int) * 1000000000
    + (t.nsec : Int)

/-- `time.Date(y, time.January, 1, h, 0, 0, 0, time.UTC)` as an
absolute instant. -/
def janFirst (y h : Nat) : Int :=
  ((daysFromCivil y 1 1 * 86400 + h * 3600 : Nat) : Int) * 1000000000

/-- 0001-01-01 is a Monday in the proleptic Gregorian calendar;
Go's `Weekday` numbers Sunday as 0. -/
def weekdayNum (t : Time) : Nat :=
  (daysFromCivil t.year t.month t.day + 1) % 7

/-! ## Decimal rendering helpers (`fmt.Sprintf` padding verbs) -/

/-- Decimal digits of a natural number (at least one digit). -/
def natDecimal (n : Nat) : Str :=
  (Nat.toDigits 10 n)

/-- `fmt.Sprintf("%02d", n)` / Go `appendInt(b, n, 2)` for `n ≥ 0`:
zero-pad to a minimal width. -/
def padZero (width : Nat) (n : Nat) : Str :=
  let ds := natDecimal n
  List.replicate (width - ds.length) '0' ++ ds

/-! ## Go `time.Time.Format`, for the layout constants used by the library

The layouts passed to `t.Format` by this library are `"Mon"`, `"Monday"`,
`"Jan"`, `"January"`, `time.RFC1123`, `"02"`, `"15"`, `"3"`, `"01"`,
`"04"`, `"PM"`, `"05"`, `"01/02/06"`, `"15:04:05"`, `"06"`, `"2006"`,
`"MST"`.  The chunk scanner below reproduces Go's `nextStdChunk` for
exactly the chunks reachable from those layouts; all other layout
characters are literals. -/

def longDayNames : List Str :=
  [l "Sunday", l "Monday", l "Tuesday", l "Wednesday", l "Thursday",
   l "Friday", l "Saturday"]

def longMonthNames : List Str :=
  [l "January", l "February", l "March", l "April", l "May", l "June",
   l "July", l "August", l "September", l "October", l "November",
   l "December"]

def dayName (t : Time) : Str := (longDayNames.getD (weekdayNum t) [])
def monthName (t : Time) : Str := (longMonthNames.getD (t.month - 1) [])

/-- Hour on the 12-hour clock, 1–12 (Go `stdHour12`). -/
def hour12 (t : Time) : Nat :=
  let h := t.hour % 12
  if h = 0 then 12 else h

/-- The zone abbreviation: the model is restricted to the UTC location,
whose name is `"UTC"`. -/
def zoneName (_t : Time) : Str := l "UTC"

/-- Go `Time.Format` on the layout chunks used by the library. -/
def goFormat (t : Time) : Str → Str
  | [] => []
  | 'M' :: 'o' :: 'n' :: 'd' :: 'a' :: 'y' :: rest =>
      dayName t ++ goFormat t rest
  | 'M' :: 'o' :: 'n' :: rest => (dayName t).take 3 ++ goFormat t rest
  | 'M' :: 'S' :: 'T' :: rest => zoneName t ++ goFormat t rest
  | 'J' :: 'a' :: 'n' :: 'u' :: 'a' :: 'r' :: 'y' :: rest =>
      monthName t ++ goFormat t rest
  | 'J' :: 'a' :: 'n' :: rest => (monthName t).take 3 ++ goFormat t rest
  | '2' :: '0' :: '0' :: '6' :: rest => padZero 4 t.year ++ goFormat t rest
  | '2' :: rest => natDecimal t.day ++ goFormat t rest
  | '1' :: '5' :: rest => padZero 2 t.hour ++ goFormat t rest
  | '1' :: rest => natDecimal t.month ++ goFormat t rest
  | '0' :: '1' :: rest => padZero 2 t.month ++ goFormat t rest
  | '0' :: '2' :: rest => padZero 2 t.day ++ goFormat t rest
  | '0' :: '3' :: rest => padZero 2 (hour12 t) ++ goFormat t rest
  | '0' :: '4' :: rest => padZero 2 t.minute ++ goFormat t rest
  | '0' :: '5' :: rest => padZero 2 t.sec ++ goFormat t rest
  | '0' :: '6' :: rest => padZero 2 (t.year % 100) ++ goFormat t rest
  | '3' :: rest => natDecimal (hour12 t) ++ goFormat t rest
  | 'P' :: 'M' :: rest =>
      (if t.hour ≥ 12 then l "PM" else l "AM") ++ goFormat t rest
  | c :: rest => c :: goFormat t rest

/-- `time.RFC1123`. -/
def rfc1123 : Str := l "Mon, 02 Jan 2006 15:04:05 MST"

/-! ## Exact model of IEEE-754 binary64 arithmetic

`%j` is computed through `float64` (`Duration.Hours` and a division by 24).
Every float64 value arising there is a nonnegative rational number; the
operations round their exact rational result to the nearest representable
`m * 2^e` with `m < 2^53`, ties to even.  Nonnegative rationals are
represented as raw numerator/denominator pairs of naturals (not reduced;
the denominator is always positive by construction).  The magnitudes
involved stay far inside the normal float64 range, so overflow and
subnormal handling never trigger and are not modelled. -/

structure Q2 where
  n : Nat
  d : Nat
  deriving Repr

/-- Number of binary digits of `n` (0 for 0), with enough structural fuel
for every quantity in this development. -/
def bitLenAux : Nat → Nat → Nat
  | 0, _ => 0
  | fuel + 1, n => if n = 0 then 0 else bitLenAux fuel (n / 2) + 1

def bitLen (n : Nat) : Nat := bitLenAux 768 n

/-- Round `a / b` (with `1 ≤ b`) to the nearest binary64 value,
ties to even.  The result is exact as a rational. -/
def roundF (a b : Nat) : Q2 :=
  if a = 0 then ⟨0, 1⟩
  else
    -- `e` with `2^e ≤ a/b < 2^(e+1)`; `a * 2^256 / b ≥ 1` for all
    -- quantities in this development.
    let e : Int := (bitLen ((a <<< 256) / b) : Int) - 1 - 256
    -- mantissa `m0 = ⌊(a/b) * 2^(52-e)⌋` and the rounding decision
    let s : Int := 52 - e
    let num := a * 2 ^ s.toNat
    let den := b * 2 ^ (-s).toNat
    let m0 := num / den
    let rem := num % den
    let m : Nat :=
      if 2 * rem < den then m0
      else if den < 2 * rem then m0 + 1
      else if m0 % 2 = 0 then m0 else m0 + 1
    -- the value `m * 2^e`
    if e ≥ 52 then ⟨m * 2 ^ (e - 52).toNat, 1⟩ else ⟨m, 2 ^ (52 - e).toNat⟩

/-- binary64 conversion of a nonnegative integer. -/
def ofNatF (n : Nat) : Q2 := roundF n 1

/-- binary64 addition of representable values. -/
def fadd (x y : Q2) : Q2 := roundF (x.n * y.d + y.n * x.d) (x.d * y.d)

/-- binary64 division of representable values (`y ≠ 0`). -/
def fdiv (x y : Q2) : Q2 := roundF (x.n * y.d) (x.d * y.n)

/-! ## The `%j` computation (`formats["%j"]`)

```go
start := time.Date(t.Year(), time.January, 1, 0, 0, 0, 0, time.UTC)
day := int(t.Sub(start).Hours()/24) + 1
return fmt.Sprintf("%03d", day)
```
with, from Go's `pkg/time`,
```go
func (d Duration) Hours() float64 {
    hour := d / Hour
    nsec := d % Hour
    return float64(hour) + float64(nsec)/(60*60*1e9)
}
```
`d / Hour` and `d % Hour` are int64 operations and `d ≥ 0` here (the
timestamp is never before Jan 1 of its own year), so they agree with the
natural-number quotient/remainder.  `int(x)` truncates toward zero; the
operand is nonnegative, so it is the floor `⌊n/d⌋` of the exact rational
float value. -/

/-- Absolute instant as a natural number of nanoseconds
(same value as `absNanos`). -/
def absNanosN (t : Time) : Nat :=
  (daysFromCivil t.year t.month t.day * 86400
    + t.hour * 3600 + t.minute * 60 + t.sec) * 1000000000 + t.nsec

/-- `janFirst` as a natural number. -/
def janFirstN (y h : Nat) : Nat :=
  (daysFromCivil y 1 1 * 86400 + h * 3600) * 1000000000

/-- `Duration.Hours` for a nonnegative duration `d` in nanoseconds. -/
def durationHours (d : Nat) : Q2 :=
  let hour := d / 3600000000000
  let nsec := d % 3600000000000
  fadd (ofNatF hour) (fdiv (ofNatF nsec) (ofNatF 3600000000000))

/-- The day value computed by the `%j` directive function. -/
def jDay (t : Time) : Nat :=
  let q := fdiv (durationHours (absNanosN t - janFirstN t.year 0)) (ofNatF 24)
  q.n / q.d + 1

/-- The `%j` directive function: `fmt.Sprintf("%03d", day)`. -/
def jFormat (t : Time) : Str := padZero 3 (jDay t)

/-! ## The `%U`/`%W` computation (`weekNumberFormatter`)

```go
start := time.Date(t.Year(), time.January, 1, 23, 0, 0, 0, time.UTC)
week := 0
for start.Before(t) {
    week += 1
    start = start.Add(WEEK)
}
return fmt.Sprintf("%02d", week)
```
-/

/-- `WEEK = time.Hour * 24 * 7` in nanoseconds. -/
def WEEK : Int := 604800000000000

/-- The counting loop of `weekNumberFormatter`: number of `WEEK` additions
until the accumulator is no longer before `tn`. -/
def weekLoop (s tn : Int) : Nat :=
  if s < tn then weekLoop (s + WEEK) tn + 1 else 0
termination_by (tn - s).toNat
decreasing_by
  simp only [WEEK] at *
  omega

def weekNumberFormatter (t : Time) : Str :=
  padZero 2 (weekLoop (janFirst t.year 23) (absNanos t))

/-! ## `formatNano` (loaded from Go `pkg/time/format.go`) -/

/-- The digit-filling loop of `formatNano`: `buf[start] = u%10+'0'; u /= 10`
from index 9 down to 0 produces these `k` characters. -/
def nanoDigits : Nat → Nat → Str
  | 0, _ => []
  | k + 1, u => nanoDigits k (u / 10) ++ [Char.ofNat (u % 10 + 48)]

/-- Trimming loop: drop trailing `'0'` characters from the first `n`
digits (the `trim` branch of `formatNano`). -/
def trimZeros (s : Str) : Str :=
  (s.reverse.dropWhile (· = '0')).reverse

/-- `formatNano(nanosec, n, trim)`. -/
def formatNano (nanosec : Nat) (n : Nat) (trim : Bool) : Str :=
  let buf := nanoDigits 9 nanosec
  let n := if n > 9 then 9 else n
  if trim then trimZeros (buf.take n) else buf.take n

/-- `formatNanoForMatch(match, t)`: `size := int(match[1] - '0')`. -/
def formatNanoForMatch (m : Str) (t : Time) : Str :=
  let size := (m.getD 1 '0').toNat - 48
  formatNano t.nsec size false

/-! ## The directive table (`formats`) -/

def formats : List (Str × (Time → Str)) :=
  [ (l "%a", fun t => goFormat t (l "Mon")),
    (l "%A", fun t => goFormat t (l "Monday")),
    (l "%b", fun t => goFormat t (l "Jan")),
    (l "%B", fun t => goFormat t (l "January")),
    (l "%c", fun t => goFormat t rfc1123),
    (l "%d", fun t => goFormat t (l "02")),
    (l "%H", fun t => goFormat t (l "15")),
    (l "%I", fun t => goFormat t (l "3")),
    (l "%j", jFormat),
    (l "%m", fun t => goFormat t (l "01")),
    (l "%M", fun t => goFormat t (l "04")),
    (l "%p", fun t => goFormat t (l "PM")),
    (l "%S", fun t => goFormat t (l "05")),
    (l "%U", weekNumberFormatter),
    (l "%W", weekNumberFormatter),
    (l "%w", fun t => natDecimal (weekdayNum t)),
    (l "%x", fun t => goFormat t (l "01/02/06")),
    (l "%X", fun t => goFormat t (l "15:04:05")),
    (l "%y", fun t => goFormat t (l "06")),
    (l "%Y", fun t => goFormat t (l "2006")),
    (l "%Z", fun t => goFormat t (l "MST")) ]

def formatsLookup (m : Str) : Option (Time → Str) :=
  formats.lookup m

/-- `repl(match, t)`. -/
def repl (m : Str) (t : Time) : Str :=
  if m = l "%%" then l "%"
  else
    match formatsLookup m with
    | some f => f t
    | none => formatNanoForMatch m t

/-! ## The one-shot scanner (`fmtRe.ReplaceAllStringFunc`)

`fmtRe` is `%([%aAbBcdHIjmMpSUwWxXyYZ]|[1-9]n)`.  At each position the two
branches are mutually exclusive, so leftmost matching is the deterministic
scan below: a recognized 2- or 3-character match is passed to `f`, any
other character is copied. -/

def fmtScan (f : Str → Str) : Str → Str
  | [] => []
  | '%' :: c :: 'n' :: rest =>
      if c = '%' || isDirectiveChar c then f ['%', c] ++ fmtScan f ('n' :: rest)
      else if isDigit19 c then f ['%', c, 'n'] ++ fmtScan f rest
      else '%' :: fmtScan f (c :: 'n' :: rest)
  | '%' :: c :: rest =>
      if c = '%' || isDirectiveChar c then f ['%', c] ++ fmtScan f rest
      else '%' :: fmtScan f (c :: rest)
  | c :: rest => c :: fmtScan f rest

/-- `Format(format, t)`. -/
def Format (format : Str) (t : Time) : Str :=
  fmtScan (fun m => repl m t) format

/-- The ordered list of `fmtRe` matches in a template (the sequence of
match values `ReplaceAllStringFunc` passes to its callback). -/
def fmtMatchesList : Str → List Str
  | [] => []
  | '%' :: c :: 'n' :: rest =>
      if c = '%' || isDirectiveChar c then ['%', c] :: fmtMatchesList ('n' :: rest)
      else if isDigit19 c then ['%', c, 'n'] :: fmtMatchesList rest
      else fmtMatchesList (c :: 'n' :: rest)
  | '%' :: c :: rest =>
      if c = '%' || isDirectiveChar c then ['%', c] :: fmtMatchesList rest
      else fmtMatchesList (c :: rest)
  | _ :: rest => fmtMatchesList rest

/-! ## The backquote scanner (`fmtBackquoteRe.ReplaceAllStringFunc`)

`fmtBackquoteRe = %([^aAbBcdHIjmMpSUwWxXyYZ1-9]|[1-9][^n])`: a `%`
followed by any character outside the directive letters and `1`–`9`
(this includes `%` itself), or a `%`, a digit `1`–`9` and any
character other than `n`. -/

def bqScan (f : Str → Str) : Str → Str
  | [] => []
  | '%' :: c :: d :: rest =>
      if !isDirectiveChar c && !isDigit19 c then
        f ['%', c] ++ bqScan f (d :: rest)
      else if isDigit19 c && d ≠ 'n' then
        f ['%', c, d] ++ bqScan f rest
      else '%' :: bqScan f (c :: d :: rest)
  | '%' :: c :: rest =>
      if !isDirectiveChar c && !isDigit19 c then f ['%', c] ++ bqScan f rest
      else '%' :: bqScan f (c :: rest)
  | c :: rest => c :: bqScan f rest

/-! ## `fmt.Sprintf`, for the skeleton strings of the compiled formatter

The skeleton strings only reach a small part of `fmt`'s verb grammar:
after a `%` the printer skips flag and width characters, then dispatches
on the verb.  Behaviour embedded from Go's `fmt.doPrintf`:
  * `%`  — "Percent does not absorb operands and ignores f.wid and
    f.prec", emits `%`;
  * `s`  — emits the next argument, or `%!s(MISSING)` when none is left;
  * any other verb with no argument left emits `%!v(MISSING)`, with an
    argument `%!v(string=arg)` (all arguments here are strings);
  * a format ending inside a verb emits `%!(NOVERB)`;
  * leftover arguments append `%!(EXTRA string=a, string=b, ...)`. -/

def isFlagOrWidth (c : Char) : Bool :=
  c = '#' || c = '0' || c = '+' || c = '-' || c = ' ' || ('1' ≤ c && c ≤ '9')

def extraArgs (args : List Str) : Str :=
  match args with
  | [] => []
  | a :: rest =>
      l "%!(EXTRA " ++ l "string=" ++ a
        ++ (rest.map (fun b => l ", string=" ++ b)).flatten ++ l ")"

mutual

def sprintfS : Str → List Str → Str
  | [], [] => []
  | [], a :: rest => extraArgs (a :: rest)
  | '%' :: rest, args => sprintfVerb rest args
  | c :: rest, args => c :: sprintfS rest args

/-- Scanning state after a `%`: skip flags and width, dispatch on the
verb character. -/
def sprintfVerb : Str → List Str → Str
  | [], args => l "%!(NOVERB)" ++ extraArgs args
  | c :: rest, args =>
      if isFlagOrWidth c then sprintfVerb rest args
      else if c = '%' then '%' :: sprintfS rest args
      else if c = 's' then
        match args with
        | a :: rest' => a ++ sprintfS rest rest'
        | [] => l "%!s(MISSING)" ++ sprintfS rest []
      else
        match args with
        | a :: rest' => l "%!" ++ [c] ++ l "(string=" ++ a ++ l ")" ++ sprintfS rest rest'
        | [] => l "%!" ++ [c] ++ l "(MISSING)" ++ sprintfS rest []

end

/-! ## The compiled formatter (`NewFormatter`, `Formatter.Format`) -/

/-- The resolution function appended by `NewFormatter`'s third pass for a
non-`%%` match: the `formats` table entry, or the `formatNanoForMatch`
closure for a `%[1-9]n` match. -/
def matchFun (m : Str) : Time → Str :=
  match formatsLookup m with
  | some f => f
  | none => fun t => formatNanoForMatch m t

/-- The `funs` slice built by `NewFormatter`'s third
`fmtRe.ReplaceAllStringFunc` pass (`f2`), which skips `%%` and appends a
resolution function per other match. -/
def collectFuns : Str → List (Time → Str)
  | [] => []
  | '%' :: c :: 'n' :: rest =>
      if c = '%' then collectFuns ('n' :: rest)
      else if isDirectiveChar c then matchFun ['%', c] :: collectFuns ('n' :: rest)
      else if isDigit19 c then matchFun ['%', c, 'n'] :: collectFuns rest
      else collectFuns (c :: 'n' :: rest)
  | '%' :: c :: rest =>
      if c = '%' then collectFuns rest
      else if isDirectiveChar c then matchFun ['%', c] :: collectFuns rest
      else collectFuns (c :: rest)
  | _ :: rest => collectFuns rest

/-- The state of a compiled `Formatter`; `formatFunc` of the source is the
closure evaluating `funs` pointwise, kept here as the list it closes
over. -/
structure Formatter where
  format : Str
  strFormat : Str
  funs : List (Time → Str)

/-- The escaping callback `f` of `NewFormatter`. -/
def escFun (m : Str) : Str := if m = l "%%" then m else '%' :: m

/-- The placeholder callback `f1` of `NewFormatter` (the `size` counter
only pre-sizes a slice and is not part of the state). -/
def placeholderFun (m : Str) : Str := if m = l "%%" then m else l "%s"

/-- `NewFormatter(format)`. -/
def NewFormatter (format : Str) : Formatter :=
  let strFormat := bqScan escFun format
  let strFormat := fmtScan placeholderFun strFormat
  { format := format, strFormat := strFormat, funs := collectFuns format }

/-- `Formatter.Format(t)`:
`fmt.Sprintf(self.strFormat, self.formatFunc(t)...)`. -/
def Formatter.Format (self : Formatter) (t : Time) : Str :=
  sprintfS self.strFormat (self.funs.map (fun f => f t))

/-! ## The writer variants (`FormatTo`, `Formatter.FormatTo`)

An `io.Writer` is modelled by its `Write` method: a function from the
byte slice written to the pair of the byte count and the error value
(`Option ε` standing for Go's nil-able `error`). -/

/-- `FormatTo(w, format, t)`: `result := Format(format, t)` followed by
`w.Write([]byte(result))`. -/
def FormatTo {ε : Type} (write : Str → Nat × Option ε) (format : Str)
    (t : Time) : Nat × Option ε :=
  let result := Format format t
  write result

/-- `Formatter.FormatTo(w, t)`: `fmt.Fprintf(w, self.strFormat, ...)`
performs one `Write` of the formatted bytes. -/
def Formatter.FormatTo {ε : Type} (self : Formatter)
    (write : Str → Nat × Option ε) (t : Time) : Nat × Option ε :=
  write (sprintfS self.strFormat (self.funs.map (fun f => f t)))

/-! ## Analysis views and predicates used by the verification -/

/-- One-step view of the `fmtRe` scanners: the match at the head of the
string (with the remaining suffix), if any. -/
def fmtStep : Str → Option (Str × Str)
  | '%' :: c :: rest =>
      if c = '%' || isDirectiveChar c then some (['%', c], rest)
      else if isDigit19 c then
        match rest with
        | 'n' :: r => some (['%', c, 'n'], r)
        | _ => none
      else none
  | _ => none

/-- One-step view of the `fmtBackquoteRe` scanner. -/
def bqStep : Str → Option (Str × Str)
  | '%' :: c :: rest =>
      if !isDirectiveChar c && !isDigit19 c then some (['%', c], rest)
      else if isDigit19 c then
        match rest with
        | d :: r => if d ≠ 'n' then some (['%', c, d], r) else none
        | [] => none
      else none
  | _ => none

/-- The scan of `s` does not end with a `'%'` copied as a literal (such a
trailing `'%'` would fuse with appended text into a new match). -/
def noDanglingTail : Str → Bool
  | [] => true
  | '%' :: c :: 'n' :: rest =>
      if c = '%' || isDirectiveChar c then noDanglingTail ('n' :: rest)
      else if isDigit19 c then noDanglingTail rest
      else noDanglingTail (c :: 'n' :: rest)
  | '%' :: c :: rest =>
      if c = '%' || isDirectiveChar c then noDanglingTail rest
      else noDanglingTail (c :: rest)
  | ['%'] => false
  | _ :: rest => noDanglingTail rest

/-- Well-formed template: every `'%'` in it starts a `fmtRe` match
(`%%`, `%` + directive letter, or `%[1-9]n`). -/
def wfB : Str → Bool
  | [] => true
  | '%' :: c :: 'n' :: rest =>
      if c = '%' || isDirectiveChar c then wfB ('n' :: rest)
      else if isDigit19 c then wfB rest
      else false
  | '%' :: c :: rest =>
      if c = '%' || isDirectiveChar c then wfB rest
      else false
  | ['%'] => false
  | _ :: rest => wfB rest

mutual

/-- Number of `s` verbs a string contains when parsed by the `fmt`
verb grammar (the number of arguments its positional placeholders
consume). -/
def sVerbCount : Str → Nat
  | [] => 0
  | '%' :: rest => sVerbCountVerb rest
  | _ :: rest => sVerbCount rest

/-- After a `%`: skip flags and width, count an `s` verb. -/
def sVerbCountVerb : Str → Nat
  | [] => 0
  | c :: rest =>
      if isFlagOrWidth c then sVerbCountVerb rest
      else if c = 's' then sVerbCount rest + 1
      else sVerbCount rest

end

/-- Spec-side formulation (from the claim's words) of the
fractional-second rendering: the sub-second component as exactly nine
decimal digits, left-padded with zeros. -/
def specNineDigits (u : Nat) : Str :=
  (List.range 9).map (fun i => Char.ofNat (u / 10 ^ (8 - i) % 10 + 48))

/-- Spec-side formulation (from the claim's words) of the `%j` value:
the number of whole 24-hour periods between midnight January 1 (UTC) of
the timestamp's year and the timestamp, plus 1. -/
def specDayOfYear (t : Time) : Nat :=
  (absNanosN t - janFirstN t.year 0) / 86400000000000 + 1

/-- The reference instant 2009-11-10T23:01:02.000000003Z of the test
suite. -/
def refTime : Time := ⟨2009, 11, 10, 23, 1, 2, 3⟩

/-- 2009-12-31T23:59:59.999999999Z, one nanosecond before New Year. -/
def yearEnd2009 : Time := ⟨2009, 12, 31, 23, 59, 59, 999999999⟩

/-! ## Lemmas about the week-number loop -/

theorem weekLoop_spec (s tn : Int) :
    ¬ s + (weekLoop s tn : Int) * WEEK < tn ∧
      ∀ k : Nat, k < weekLoop s tn → s + (k : Int) * WEEK < tn := by
  induction s, tn using weekLoop.induct with
  | case1 s tn h ih =>
      rw [weekLoop, if_pos h]
      obtain ⟨ih1, ih2⟩ := ih
      constructor
      · push_cast
        have : s + ((weekLoop (s + WEEK) tn : Int) + 1) * WEEK
            = s + WEEK + (weekLoop (s + WEEK) tn : Int) * WEEK := by ring
        rw [this]
        exact ih1
      · intro k hk
        match k with
        | 0 => simpa using h
        | k + 1 =>
            have hk' : k < weekLoop (s + WEEK) tn := by omega
            have := ih2 k hk'
            push_cast
            have e : s + ((k : Int) + 1) * WEEK
                = s + WEEK + (k : Int) * WEEK := by ring
            rw [e]
            exact this
  | case2 s tn h =>
      rw [weekLoop, if_neg h]
      refine ⟨by simpa using h, fun k hk => absurd hk (by omega)⟩

/-- The loop count is determined by the two bounds it satisfies. -/
theorem weekLoop_eq_of (s tn : Int) (n : Nat)
    (h1 : ¬ s + (n : Int) * WEEK < tn)
    (h2 : ∀ k : Nat, k < n → s + (k : Int) * WEEK < tn) :
    weekLoop s tn = n := by
  obtain ⟨g1, g2⟩ := weekLoop_spec s tn
  rcases Nat.lt_trichotomy (weekLoop s tn) n with h | h | h
  · exact absurd (h2 _ h) g1
  · exact h
  · exact absurd (g2 _ h) h1

/-! ## Step equations for the scanners

Uniform one-step equations, independent of whether the suffix starts
with `'n'`. -/

theorem fmtScan_match2 (f : Str → Str) (c : Char) (X : Str)
    (h : (c = '%' || isDirectiveChar c) = true) :
    fmtScan f ('%' :: c :: X) = f ['%', c] ++ fmtScan f X := by
  cases X with
  | nil => simp [fmtScan, h]
  | cons d rest =>
      by_cases hd : d = 'n'
      · subst hd; simp [fmtScan, h]
      · simp [fmtScan, h, hd]

theorem fmtScan_match3 (f : Str → Str) (c : Char) (rest : Str)
    (h1 : ¬ (c = '%' || isDirectiveChar c) = true)
    (h2 : isDigit19 c = true) :
    fmtScan f ('%' :: c :: 'n' :: rest) = f ['%', c, 'n'] ++ fmtScan f rest := by
  simp [fmtScan, h1, h2]

theorem fmtScan_nomatch (f : Str → Str) (c : Char) (X : Str)
    (h1 : ¬ (c = '%' || isDirectiveChar c) = true)
    (h2 : ¬ (isDigit19 c = true ∧ X.head? = some 'n')) :
    fmtScan f ('%' :: c :: X) = '%' :: fmtScan f (c :: X) := by
  cases X with
  | nil => simp [fmtScan, h1]
  | cons d rest =>
      by_cases hd : d = 'n'
      · subst hd
        have hc : ¬ isDigit19 c = true := by
          intro hc; exact h2 ⟨hc, rfl⟩
        simp [fmtScan, h1, hc]
      · simp [fmtScan, h1, hd]

theorem fmtScan_lit (f : Str → Str) (c : Char) (rest : Str)
    (h : ¬ c = '%') :
    fmtScan f (c :: rest) = c :: fmtScan f rest := by
  cases rest with
  | nil => simp [fmtScan, h]
  | cons d rest' =>
      by_cases hd : d = 'n'
      · subst hd; simp [fmtScan, h]
      · simp [fmtScan, h, hd]

theorem fmtScan_pcnil (f : Str → Str) :
    fmtScan f ['%'] = ['%'] := by
  simp [fmtScan]

theorem fmtMatchesList_match2 (c : Char) (X : Str)
    (h : (c = '%' || isDirectiveChar c) = true) :
    fmtMatchesList ('%' :: c :: X) = ['%', c] :: fmtMatchesList X := by
  cases X with
  | nil => simp [fmtMatchesList, h]
  | cons d rest =>
      by_cases hd : d = 'n'
      · subst hd; simp [fmtMatchesList, h]
      · simp [fmtMatchesList, h, hd]

theorem fmtMatchesList_match3 (c : Char) (rest : Str)
    (h1 : ¬ (c = '%' || isDirectiveChar c) = true)
    (h2 : isDigit19 c = true) :
    fmtMatchesList ('%' :: c :: 'n' :: rest)
      = ['%', c, 'n'] :: fmtMatchesList rest := by
  simp [fmtMatchesList, h1, h2]

theorem fmtMatchesList_nomatch (c : Char) (X : Str)
    (h1 : ¬ (c = '%' || isDirectiveChar c) = true)
    (h2 : ¬ (isDigit19 c = true ∧ X.head? = some 'n')) :
    fmtMatchesList ('%' :: c :: X) = fmtMatchesList (c :: X) := by
  cases X with
  | nil => simp [fmtMatchesList, h1]
  | cons d rest =>
      by_cases hd : d = 'n'
      · subst hd
        have hc : ¬ isDigit19 c = true := by
          intro hc; exact h2 ⟨hc, rfl⟩
        simp [fmtMatchesList, h1, hc]
      · simp [fmtMatchesList, h1, hd]

theorem fmtMatchesList_lit (c : Char) (rest : Str) (h : ¬ c = '%') :
    fmtMatchesList (c :: rest) = fmtMatchesList rest := by
  cases rest with
  | nil => simp [fmtMatchesList, h]
  | cons d rest' =>
      by_cases hd : d = 'n'
      · subst hd; simp [fmtMatchesList, h]
      · simp [fmtMatchesList, h, hd]

theorem fmtMatchesList_pcnil : fmtMatchesList ['%'] = [] := by
  simp [fmtMatchesList]

theorem collectFuns_pc (X : Str) :
    collectFuns ('%' :: '%' :: X) = collectFuns X := by
  cases X with
  | nil => simp [collectFuns]
  | cons d rest =>
      by_cases hd : d = 'n'
      · subst hd; simp [collectFuns]
      · simp [collectFuns, hd]

theorem collectFuns_dir (c : Char) (X : Str)
    (hc : ¬ c = '%') (h : isDirectiveChar c = true) :
    collectFuns ('%' :: c :: X) = matchFun ['%', c] :: collectFuns X := by
  cases X with
  | nil => simp [collectFuns, hc, h]
  | cons d rest =>
      by_cases hd : d = 'n'
      · subst hd; simp [collectFuns, hc, h]
      · simp [collectFuns, hc, h, hd]

theorem collectFuns_digit (c : Char) (rest : Str)
    (hc : ¬ c = '%') (h1 : ¬ isDirectiveChar c = true)
    (h2 : isDigit19 c = true) :
    collectFuns ('%' :: c :: 'n' :: rest)
      = matchFun ['%', c, 'n'] :: collectFuns rest := by
  simp [collectFuns, hc, h1, h2]

theorem collectFuns_nomatch (c : Char) (X : Str)
    (h1 : ¬ (c = '%' || isDirectiveChar c) = true)
    (h2 : ¬ (isDigit19 c = true ∧ X.head? = some 'n')) :
    collectFuns ('%' :: c :: X) = collectFuns (c :: X) := by
  have hc : ¬ c = '%' := by
    intro hc; subst hc; simp at h1
  have hdir : ¬ isDirectiveChar c = true := by
    intro hd; simp [hd] at h1
  cases X with
  | nil => simp [collectFuns, hc, hdir]
  | cons d rest =>
      by_cases hd : d = 'n'
      · subst hd
        have hdig : ¬ isDigit19 c = true := by
          intro hg; exact h2 ⟨hg, rfl⟩
        simp [collectFuns, hc, hdir, hdig]
      · simp [collectFuns, hc, hdir, hd]

theorem collectFuns_lit (c : Char) (rest : Str) (h : ¬ c = '%') :
    collectFuns (c :: rest) = collectFuns rest := by
  cases rest with
  | nil => simp [collectFuns, h]
  | cons d rest' =>
      by_cases hd : d = 'n'
      · subst hd; simp [collectFuns, h]
      · simp [collectFuns, h, hd]

theorem collectFuns_pcnil : collectFuns ['%'] = [] := by
  simp [collectFuns]

theorem noDanglingTail_match2 (c : Char) (X : Str)
    (h : (c = '%' || isDirectiveChar c) = true) :
    noDanglingTail ('%' :: c :: X) = noDanglingTail X := by
  cases X with
  | nil => simp [noDanglingTail, h]
  | cons d rest =>
      by_cases hd : d = 'n'
      · subst hd; simp [noDanglingTail, h]
      · simp [noDanglingTail, h, hd]

theorem noDanglingTail_match3 (c : Char) (rest : Str)
    (h1 : ¬ (c = '%' || isDirectiveChar c) = true)
    (h2 : isDigit19 c = true) :
    noDanglingTail ('%' :: c :: 'n' :: rest) = noDanglingTail rest := by
  simp [noDanglingTail, h1, h2]

theorem noDanglingTail_nomatch (c : Char) (X : Str)
    (h1 : ¬ (c = '%' || isDirectiveChar c) = true)
    (h2 : ¬ (isDigit19 c = true ∧ X.head? = some 'n')) :
    noDanglingTail ('%' :: c :: X) = noDanglingTail (c :: X) := by
  cases X with
  | nil => simp [noDanglingTail, h1]
  | cons d rest =>
      by_cases hd : d = 'n'
      · subst hd
        have hc : ¬ isDigit19 c = true := by
          intro hc; exact h2 ⟨hc, rfl⟩
        simp [noDanglingTail, h1, hc]
      · simp [noDanglingTail, h1, hd]

theorem noDanglingTail_lit (c : Char) (rest : Str) (h : ¬ c = '%') :
    noDanglingTail (c :: rest) = noDanglingTail rest := by
  cases rest with
  | nil => simp [noDanglingTail, h]
  | cons d rest' =>
      by_cases hd : d = 'n'
      · subst hd; simp [noDanglingTail, h]
      · simp [noDanglingTail, h, hd]

theorem wfB_match2 (c : Char) (X : Str)
    (h : (c = '%' || isDirectiveChar c) = true) :
    wfB ('%' :: c :: X) = wfB X := by
  cases X with
  | nil => simp [wfB, h]
  | cons d rest =>
      by_cases hd : d = 'n'
      · subst hd; simp [wfB, h]
      · simp [wfB, h, hd]

theorem wfB_match3 (c : Char) (rest : Str)
    (h1 : ¬ (c = '%' || isDirectiveChar c) = true)
    (h2 : isDigit19 c = true) :
    wfB ('%' :: c :: 'n' :: rest) = wfB rest := by
  simp [wfB, h1, h2]

theorem wfB_nomatch (c : Char) (X : Str)
    (h1 : ¬ (c = '%' || isDirectiveChar c) = true)
    (h2 : ¬ (isDigit19 c = true ∧ X.head? = some 'n')) :
    wfB ('%' :: c :: X) = false := by
  cases X with
  | nil => simp [wfB, h1]
  | cons d rest =>
      by_cases hd : d = 'n'
      · subst hd
        have hc : ¬ isDigit19 c = true := by
          intro hc; exact h2 ⟨hc, rfl⟩
        simp [wfB, h1, hc]
      · simp [wfB, h1, hd]

theorem wfB_lit (c : Char) (rest : Str) (h : ¬ c = '%') :
    wfB (c :: rest) = wfB rest := by
  cases rest with
  | nil => simp [wfB, h]
  | cons d rest' =>
      by_cases hd : d = 'n'
      · subst hd; simp [wfB, h]
      · simp [wfB, h, hd]

theorem bqScan_match2 (f : Str → Str) (c : Char) (X : Str)
    (h : (!isDirectiveChar c && !isDigit19 c) = true) :
    bqScan f ('%' :: c :: X) = f ['%', c] ++ bqScan f X := by
  cases X with
  | nil => simp [bqScan, h]
  | cons d rest => simp [bqScan, h]

/-- The letter class and the digit class of the regexps are disjoint. -/
theorem dirChar_not_digit (c : Char) (h : isDirectiveChar c = true) :
    isDigit19 c = false := by
  have hm : c ∈ directiveChars := by
    simpa [isDirectiveChar] using h
  fin_cases hm <;> decide

theorem digit_not_dirChar (c : Char) (h : isDigit19 c = true) :
    isDirectiveChar c = false := by
  by_cases hd : isDirectiveChar c = true
  · rw [dirChar_not_digit c hd] at h; exact absurd h (by simp)
  · simpa using hd

theorem bqScan_match3 (f : Str → Str) (c d : Char) (rest : Str)
    (h1 : isDigit19 c = true) (h2 : ¬ d = 'n') :
    bqScan f ('%' :: c :: d :: rest) = f ['%', c, d] ++ bqScan f rest := by
  have hdir := digit_not_dirChar c h1
  simp [bqScan, hdir, h1, h2]

theorem bqScan_nomatch_dir (f : Str → Str) (c : Char) (X : Str)
    (h : isDirectiveChar c = true) :
    bqScan f ('%' :: c :: X) = '%' :: bqScan f (c :: X) := by
  have hdig := dirChar_not_digit c h
  cases X with
  | nil => simp [bqScan, h, hdig]
  | cons d rest => simp [bqScan, h, hdig]

theorem bqScan_nomatch_dign (f : Str → Str) (c : Char) (X : Str)
    (h1 : isDigit19 c = true) (h2 : X.head? = some 'n' ∨ X = []) :
    bqScan f ('%' :: c :: X) = '%' :: bqScan f (c :: X) := by
  have hdir := digit_not_dirChar c h1
  cases X with
  | nil => simp [bqScan, h1, hdir]
  | cons d rest =>
      rcases h2 with h2 | h2
      · simp only [List.head?] at h2
        injection h2 with h2
        subst h2
        simp [bqScan, h1, hdir]
      · exact absurd h2 (by simp)

theorem bqScan_lit (f : Str → Str) (c : Char) (rest : Str) (h : ¬ c = '%') :
    bqScan f (c :: rest) = c :: bqScan f rest := by
  cases rest with
  | nil => simp [bqScan, h]
  | cons d rest' => simp [bqScan, h]

theorem bqScan_pcnil (f : Str → Str) : bqScan f ['%'] = ['%'] := by
  simp [bqScan]

/-! ## Compositionality of the one-shot scan

Appending to a template whose scan does not end in a dangling literal
`'%'` (and whose appended part does not start with `'n'`, which could
complete a `%[1-9]n` match) splits the scan. -/

theorem fmtScan_append (f : Str → Str) (u w : Str)
    (hu : noDanglingTail u = true) (hw : w.head? ≠ some 'n') :
    fmtScan f (u ++ w) = fmtScan f u ++ fmtScan f w := by
  induction u using noDanglingTail.induct with
  | case1 => simp [fmtScan]
  | case2 c rest h ih =>
      rw [noDanglingTail_match2 c _ h] at hu
      show fmtScan f ('%' :: c :: ('n' :: rest ++ w)) = _
      rw [fmtScan_match2 f c _ h, fmtScan_match2 f c _ h, ih hu,
        List.append_assoc]
  | case3 c rest h1 h2 ih =>
      rw [noDanglingTail_match3 c _ h1 h2] at hu
      show fmtScan f ('%' :: c :: 'n' :: (rest ++ w)) = _
      rw [fmtScan_match3 f c _ h1 h2, fmtScan_match3 f c _ h1 h2, ih hu,
        List.append_assoc]
  | case4 c rest h1 h2 ih =>
      rw [noDanglingTail_nomatch c _ h1 (by simp [h2])] at hu
      show fmtScan f ('%' :: c :: ('n' :: rest ++ w)) = _
      rw [fmtScan_nomatch f c _ h1 (by simp [h2]),
        fmtScan_nomatch f c _ h1 (by simp [h2])]
      show '%' :: fmtScan f ((c :: 'n' :: rest) ++ w) = _
      rw [ih hu]
      simp
  | case5 c rest hne h ih =>
      rw [noDanglingTail_match2 c _ h] at hu
      show fmtScan f ('%' :: c :: (rest ++ w)) = _
      rw [fmtScan_match2 f c _ h, fmtScan_match2 f c _ h, ih hu,
        List.append_assoc]
  | case6 c rest hne h ih =>
      have hn : ¬ (isDigit19 c = true ∧ rest.head? = some 'n') := by
        rintro ⟨-, hh⟩
        cases rest with
        | nil => simp at hh
        | cons d r =>
            simp only [List.head?] at hh
            injection hh with hh
            exact hne r (by rw [hh])
      have hnw : ¬ (isDigit19 c = true ∧ (rest ++ w).head? = some 'n') := by
        rintro ⟨-, hh⟩
        cases rest with
        | nil =>
            simp only [List.nil_append] at hh
            exact hw hh
        | cons d r =>
            simp only [List.cons_append, List.head?] at hh
            injection hh with hh
            exact hne r (by rw [hh])
      rw [noDanglingTail_nomatch c _ h hn] at hu
      show fmtScan f ('%' :: c :: (rest ++ w)) = _
      rw [fmtScan_nomatch f c _ h hnw, fmtScan_nomatch f c _ h hn]
      show '%' :: fmtScan f ((c :: rest) ++ w) = _
      rw [ih hu]
      simp
  | case7 =>
      rw [show noDanglingTail ['%'] = false from by simp [noDanglingTail]] at hu
      exact absurd hu (by simp)
  | case8 c rest h1 h2 h3 ih =>
      have hc : ¬ c = '%' := by
        intro hceq
        cases rest with
        | nil => exact h3 hceq rfl
        | cons d r => exact h2 d r hceq rfl
      rw [noDanglingTail_lit c _ hc] at hu
      show fmtScan f (c :: (rest ++ w)) = _
      rw [fmtScan_lit f c _ hc, fmtScan_lit f c _ hc, ih hu]
      simp

/-! ## Step equations for the sprintf model and the verb counter -/

theorem sprintfS_pcpc (X : Str) (args : List Str) :
    sprintfS ('%' :: '%' :: X) args = '%' :: sprintfS X args := by
  simp [sprintfS, sprintfVerb, isFlagOrWidth]

theorem sprintfS_pcs (X : Str) (a : Str) (args : List Str) :
    sprintfS ('%' :: 's' :: X) (a :: args) = a ++ sprintfS X args := by
  simp [sprintfS, sprintfVerb, isFlagOrWidth]

theorem sprintfS_lit (c : Char) (X : Str) (args : List Str)
    (h : ¬ c = '%') :
    sprintfS (c :: X) args = c :: sprintfS X args := by
  cases args <;> simp [sprintfS, h]

theorem sVerbCount_pcpc (X : Str) :
    sVerbCount ('%' :: '%' :: X) = sVerbCount X := by
  simp [sVerbCount, sVerbCountVerb, isFlagOrWidth]

theorem sVerbCount_pcs (X : Str) :
    sVerbCount ('%' :: 's' :: X) = sVerbCount X + 1 := by
  simp [sVerbCount, sVerbCountVerb, isFlagOrWidth]

theorem sVerbCount_lit (c : Char) (X : Str) (h : ¬ c = '%') :
    sVerbCount (c :: X) = sVerbCount X := by
  simp [sVerbCount, h]

/-! ## The escaping pass is the identity on well-formed templates -/

theorem bqScan_wf (s : Str) (h : wfB s = true) : bqScan escFun s = s := by
  induction s using wfB.induct with
  | case1 => simp [bqScan]
  | case2 c rest hc ih =>
      rw [wfB_match2 c _ hc] at h
      have hc2 : c = '%' ∨ isDirectiveChar c = true := by simpa using hc
      rcases hc2 with hc' | hc'
      · subst hc'
        rw [bqScan_match2 escFun '%' _ (by decide)]
        rw [ih h]
        rfl
      · have hne : ¬ c = '%' := by
          intro he; subst he; simp [isDirectiveChar, directiveChars] at hc'
        rw [bqScan_nomatch_dir escFun c _ hc', bqScan_lit escFun c _ hne,
          ih h]
  | case3 c rest h1 h2 ih =>
      rw [wfB_match3 c _ h1 h2] at h
      have hne : ¬ c = '%' := by
        intro he; subst he; simp at h1
      rw [bqScan_nomatch_dign escFun c ('n' :: rest) h2 (Or.inl rfl),
        bqScan_lit escFun c _ hne,
        bqScan_lit escFun 'n' _ (by decide), ih h]
  | case4 c rest h1 h2 =>
      rw [wfB_nomatch c _ h1 (by simp [h2])] at h
      exact absurd h (by simp)
  | case5 c rest hne hc ih =>
      rw [wfB_match2 c _ hc] at h
      have hc2 : c = '%' ∨ isDirectiveChar c = true := by simpa using hc
      rcases hc2 with hc' | hc'
      · subst hc'
        rw [bqScan_match2 escFun '%' _ (by decide)]
        rw [ih h]
        rfl
      · have hne' : ¬ c = '%' := by
          intro he; subst he; simp [isDirectiveChar, directiveChars] at hc'
        rw [bqScan_nomatch_dir escFun c _ hc', bqScan_lit escFun c _ hne',
          ih h]
  | case6 c rest hrest h1 =>
      have h2 : ¬ (isDigit19 c = true ∧ rest.head? = some 'n') := by
        rintro ⟨-, hh⟩
        cases rest with
        | nil => simp at hh
        | cons d r =>
            simp only [List.head?] at hh
            injection hh with hh
            exact hrest r (by rw [hh])
      rw [wfB_nomatch c _ h1 h2] at h
      exact absurd h (by simp)
  | case7 =>
      rw [show wfB ['%'] = false from by simp [wfB]] at h
      exact absurd h (by simp)
  | case8 c rest h1 h2 h3 ih =>
      have hc : ¬ c = '%' := by
        intro hceq
        cases rest with
        | nil => exact h3 hceq rfl
        | cons d r => exact h2 d r hceq rfl
      rw [wfB_lit c _ hc] at h
      rw [bqScan_lit escFun c _ hc, ih h]

/-! ## The substitution pass agrees with the one-shot replacement -/

theorem repl_nopc (m : Str) (t : Time) (h : ¬ m = l "%%") :
    repl m t = matchFun m t := by
  cases hf : formatsLookup m <;> simp [repl, matchFun, h, hf]

theorem sprintf_skeleton_wf (t : Time) (s : Str) (h : wfB s = true) :
    sprintfS (fmtScan placeholderFun s) ((collectFuns s).map (fun f => f t))
      = fmtScan (fun m => repl m t) s := by
  induction s using wfB.induct with
  | case1 => simp [fmtScan, collectFuns, sprintfS]
  | case2 c rest hc ih =>
      rw [wfB_match2 c _ hc] at h
      have hc2 : c = '%' ∨ isDirectiveChar c = true := by simpa using hc
      rcases hc2 with hc' | hc'
      · subst hc'
        rw [fmtScan_match2 _ _ _ hc, fmtScan_match2 _ _ _ hc,
          collectFuns_pc]
        show sprintfS ('%' :: '%' :: fmtScan placeholderFun ('n' :: rest)) _ = _
        rw [sprintfS_pcpc, ih h]
        rfl
      · have hne : ¬ c = '%' := by
          intro he; subst he; simp [isDirectiveChar, directiveChars] at hc'
        rw [fmtScan_match2 _ _ _ hc, fmtScan_match2 _ _ _ hc,
          collectFuns_dir c _ hne hc']
        have hpf : placeholderFun ['%', c] = l "%s" := by
          simp [placeholderFun, l, hne]
        rw [hpf]
        show sprintfS ('%' :: 's' :: fmtScan placeholderFun ('n' :: rest))
          (matchFun ['%', c] t :: _) = _
        rw [sprintfS_pcs, ih h, repl_nopc _ _ (by simp [l, hne])]
  | case3 c rest h1 h2 ih =>
      rw [wfB_match3 c _ h1 h2] at h
      rw [fmtScan_match3 _ _ _ h1 h2, fmtScan_match3 _ _ _ h1 h2]
      have hne : ¬ c = '%' := by
        intro he; subst he; simp at h1
      have hdir : ¬ isDirectiveChar c = true := by
        intro hd; simp [hd] at h1
      rw [collectFuns_digit c _ hne hdir h2]
      have hpf : placeholderFun ['%', c, 'n'] = l "%s" := by
        simp [placeholderFun, l]
      rw [hpf]
      show sprintfS ('%' :: 's' :: fmtScan placeholderFun rest)
        (matchFun ['%', c, 'n'] t :: _) = _
      rw [sprintfS_pcs, ih h, repl_nopc _ _ (by simp [l])]
  | case4 c rest h1 h2 =>
      rw [wfB_nomatch c _ h1 (by simp [h2])] at h
      exact absurd h (by simp)
  | case5 c rest hrest hc ih =>
      rw [wfB_match2 c _ hc] at h
      have hc2 : c = '%' ∨ isDirectiveChar c = true := by simpa using hc
      rcases hc2 with hc' | hc'
      · subst hc'
        rw [fmtScan_match2 _ _ _ hc, fmtScan_match2 _ _ _ hc,
          collectFuns_pc]
        show sprintfS ('%' :: '%' :: fmtScan placeholderFun rest) _ = _
        rw [sprintfS_pcpc, ih h]
        rfl
      · have hne : ¬ c = '%' := by
          intro he; subst he; simp [isDirectiveChar, directiveChars] at hc'
        rw [fmtScan_match2 _ _ _ hc, fmtScan_match2 _ _ _ hc,
          collectFuns_dir c _ hne hc']
        have hpf : placeholderFun ['%', c] = l "%s" := by
          simp [placeholderFun, l, hne]
        rw [hpf]
        show sprintfS ('%' :: 's' :: fmtScan placeholderFun rest)
          (matchFun ['%', c] t :: _) = _
        rw [sprintfS_pcs, ih h, repl_nopc _ _ (by simp [l, hne])]
  | case6 c rest hrest h1 =>
      have h2 : ¬ (isDigit19 c = true ∧ rest.head? = some 'n') := by
        rintro ⟨-, hh⟩
        cases rest with
        | nil => simp at hh
        | cons d r =>
            simp only [List.head?] at hh
            injection hh with hh
            exact hrest r (by rw [hh])
      rw [wfB_nomatch c _ h1 h2] at h
      exact absurd h (by simp)
  | case7 =>
      rw [show wfB ['%'] = false from by simp [wfB]] at h
      exact absurd h (by simp)
  | case8 c rest h1 h2 h3 ih =>
      have hc : ¬ c = '%' := by
        intro hceq
        cases rest with
        | nil => exact h3 hceq rfl
        | cons d r => exact h2 d r hceq rfl
      rw [wfB_lit c _ hc] at h
      rw [fmtScan_lit _ _ _ hc, fmtScan_lit _ _ _ hc, collectFuns_lit _ _ hc,
        sprintfS_lit c _ _ hc, ih h]

/-- The number of `s` verbs the skeleton consumes equals the number of
collected resolution functions. -/
theorem sVerbCount_skeleton_wf (s : Str) (h : wfB s = true) :
    sVerbCount (fmtScan placeholderFun s) = (collectFuns s).length := by
  induction s using wfB.induct with
  | case1 => simp [fmtScan, collectFuns, sVerbCount]
  | case2 c rest hc ih =>
      rw [wfB_match2 c _ hc] at h
      have hc2 : c = '%' ∨ isDirectiveChar c = true := by simpa using hc
      rcases hc2 with hc' | hc'
      · subst hc'
        rw [fmtScan_match2 _ _ _ hc, collectFuns_pc]
        show sVerbCount ('%' :: '%' :: fmtScan placeholderFun ('n' :: rest)) = _
        rw [sVerbCount_pcpc, ih h]
      · have hne : ¬ c = '%' := by
          intro he; subst he; simp [isDirectiveChar, directiveChars] at hc'
        rw [fmtScan_match2 _ _ _ hc, collectFuns_dir c _ hne hc']
        have hpf : placeholderFun ['%', c] = l "%s" := by
          simp [placeholderFun, l, hne]
        rw [hpf]
        show sVerbCount ('%' :: 's' :: fmtScan placeholderFun ('n' :: rest)) = _
        rw [sVerbCount_pcs, ih h]
        simp
  | case3 c rest h1 h2 ih =>
      rw [wfB_match3 c _ h1 h2] at h
      rw [fmtScan_match3 _ _ _ h1 h2]
      have hne : ¬ c = '%' := by
        intro he; subst he; simp at h1
      have hdir : ¬ isDirectiveChar c = true := by
        intro hd; simp [hd] at h1
      rw [collectFuns_digit c _ hne hdir h2]
      have hpf : placeholderFun ['%', c, 'n'] = l "%s" := by
        simp [placeholderFun, l]
      rw [hpf]
      show sVerbCount ('%' :: 's' :: fmtScan placeholderFun rest) = _
      rw [sVerbCount_pcs, ih h]
      simp
  | case4 c rest h1 h2 =>
      rw [wfB_nomatch c _ h1 (by simp [h2])] at h
      exact absurd h (by simp)
  | case5 c rest hrest hc ih =>
      rw [wfB_match2 c _ hc] at h
      have hc2 : c = '%' ∨ isDirectiveChar c = true := by simpa using hc
      rcases hc2 with hc' | hc'
      · subst hc'
        rw [fmtScan_match2 _ _ _ hc, collectFuns_pc]
        show sVerbCount ('%' :: '%' :: fmtScan placeholderFun rest) = _
        rw [sVerbCount_pcpc, ih h]
      · have hne : ¬ c = '%' := by
          intro he; subst he; simp [isDirectiveChar, directiveChars] at hc'
        rw [fmtScan_match2 _ _ _ hc, collectFuns_dir c _ hne hc']
        have hpf : placeholderFun ['%', c] = l "%s" := by
          simp [placeholderFun, l, hne]
        rw [hpf]
        show sVerbCount ('%' :: 's' :: fmtScan placeholderFun rest) = _
        rw [sVerbCount_pcs, ih h]
        simp
  | case6 c rest hrest h1 =>
      have h2 : ¬ (isDigit19 c = true ∧ rest.head? = some 'n') := by
        rintro ⟨-, hh⟩
        cases rest with
        | nil => simp at hh
        | cons d r =>
            simp only [List.head?] at hh
            injection hh with hh
            exact hrest r (by rw [hh])
      rw [wfB_nomatch c _ h1 h2] at h
      exact absurd h (by simp)
  | case7 =>
      rw [show wfB ['%'] = false from by simp [wfB]] at h
      exact absurd h (by simp)
  | case8 c rest h1 h2 h3 ih =>
      have hc : ¬ c = '%' := by
        intro hceq
        cases rest with
        | nil => exact h3 hceq rfl
        | cons d r => exact h2 d r hceq rfl
      rw [wfB_lit c _ hc] at h
      rw [fmtScan_lit _ _ _ hc, collectFuns_lit _ _ hc,
        sVerbCount_lit c _ hc, ih h]

/-- The collected resolution functions are exactly the non-`%%`
recognized matches of the template, in template order. -/
theorem collectFuns_eq_matches (s : Str) :
    collectFuns s
      = ((fmtMatchesList s).filter (fun m => decide (¬ m = l "%%"))).map
          matchFun := by
  induction s using collectFuns.induct with
  | case1 => simp [collectFuns, fmtMatchesList]
  | case2 rest ih =>
      rw [collectFuns_pc, fmtMatchesList_match2 '%' _ (by decide), ih]
      simp [l]
  | case3 c rest hne hdir ih =>
      rw [collectFuns_dir c _ hne hdir,
        fmtMatchesList_match2 c _ (by simp [hdir]), ih]
      simp [l, hne]
  | case4 c rest hne hdir hdig ih =>
      rw [collectFuns_digit c _ hne hdir hdig,
        fmtMatchesList_match3 c _ (by simp [hne, hdir]) hdig, ih]
      simp [l]
  | case5 c rest hne hdir hdig ih =>
      rw [collectFuns_nomatch c _ (by simp [hne, hdir]) (by simp [hdig]),
        fmtMatchesList_nomatch c _ (by simp [hne, hdir]) (by simp [hdig]),
        ih]
  | case6 rest hrest ih =>
      rw [collectFuns_pc, fmtMatchesList_match2 '%' _ (by decide), ih]
      simp [l]
  | case7 c rest hrest hne hdir ih =>
      rw [collectFuns_dir c _ hne hdir,
        fmtMatchesList_match2 c _ (by simp [hdir]), ih]
      simp [l, hne]
  | case8 c rest hrest hne hdir ih =>
      have h2 : ¬ (isDigit19 c = true ∧ rest.head? = some 'n') := by
        rintro ⟨-, hh⟩
        cases rest with
        | nil => simp at hh
        | cons d r =>
            simp only [List.head?] at hh
            injection hh with hh
            exact hrest r (by rw [hh])
      rw [collectFuns_nomatch c _ (by simp [hne, hdir]) h2,
        fmtMatchesList_nomatch c _ (by simp [hne, hdir]) h2, ih]
  | case9 c rest h1 h2 ih =>
      by_cases hc : c = '%'
      · subst hc
        cases rest with
        | nil => simp [collectFuns, fmtMatchesList]
        | cons d r => exact absurd rfl (h2 d r rfl)
      · rw [collectFuns_lit c _ hc, fmtMatchesList_lit c _ hc, ih]

/-! ## Assorted helper lemmas -/

/-- The digit-filling loop of `formatNano` produces the nine-digit
zero-padded decimal rendering. -/
theorem nanoDigits_spec (u : Nat) : nanoDigits 9 u = specNineDigits u := by
  show nanoDigits 8 (u / 10) ++ [Char.ofNat (u % 10 + 48)] = _
  simp [nanoDigits, specNineDigits, List.range_succ, Nat.div_div_eq_div_mul]

/-- The week loop counts 45 weeks at the reference instant. -/
theorem weekLoop_refTime :
    weekLoop (janFirst refTime.year 23) (absNanos refTime) = 45 :=
  weekLoop_eq_of _ _ 45 (by decide) (by decide)

theorem weekNumberFormatter_refTime :
    weekNumberFormatter refTime = l "45" := by
  unfold weekNumberFormatter
  rw [weekLoop_refTime]
  decide

/-- A digit `1`–`9` is not `'%'`. -/
theorem digit_ne_pc (c : Char) (h : isDigit19 c = true) : ¬ c = '%' := by
  intro he; subst he; exact absurd h (by decide)

/-- Well-formedness survives appending. -/
theorem wfB_append (u w : Str) (hu : wfB u = true) (hw : wfB w = true) :
    wfB (u ++ w) = true := by
  induction u using wfB.induct with
  | case1 => simpa using hw
  | case2 c rest hc ih =>
      rw [wfB_match2 c _ hc] at hu
      show wfB ('%' :: c :: ('n' :: rest ++ w)) = true
      rw [wfB_match2 c _ hc]
      exact ih hu
  | case3 c rest h1 h2 ih =>
      rw [wfB_match3 c _ h1 h2] at hu
      show wfB ('%' :: c :: 'n' :: (rest ++ w)) = true
      rw [wfB_match3 c _ h1 h2]
      exact ih hu
  | case4 c rest h1 h2 =>
      rw [wfB_nomatch c _ h1 (by simp [h2])] at hu
      exact absurd hu (by simp)
  | case5 c rest hrest hc ih =>
      rw [wfB_match2 c _ hc] at hu
      show wfB ('%' :: c :: (rest ++ w)) = true
      rw [wfB_match2 c _ hc]
      exact ih hu
  | case6 c rest hrest h1 =>
      have h2 : ¬ (isDigit19 c = true ∧ rest.head? = some 'n') := by
        rintro ⟨-, hh⟩
        cases rest with
        | nil => simp at hh
        | cons d r =>
            simp only [List.head?] at hh
            injection hh with hh
            exact hrest r (by rw [hh])
      rw [wfB_nomatch c _ h1 h2] at hu
      exact absurd hu (by simp)
  | case7 =>
      rw [show wfB ['%'] = false from by simp [wfB]] at hu
      exact absurd hu (by simp)
  | case8 c rest h1 h2 h3 ih =>
      have hc : ¬ c = '%' := by
        intro hceq
        cases rest with
        | nil => exact h3 hceq rfl
        | cons d r => exact h2 d r hceq rfl
      rw [wfB_lit c _ hc] at hu
      show wfB (c :: (rest ++ w)) = true
      rw [wfB_lit c _ hc]
      exact ih hu

/-- A well-formed template has no dangling literal `'%'`. -/
theorem wfB_noDangling (s : Str) (h : wfB s = true) :
    noDanglingTail s = true := by
  induction s using wfB.induct with
  | case1 => simp [noDanglingTail]
  | case2 c rest hc ih =>
      rw [wfB_match2 c _ hc] at h
      rw [noDanglingTail_match2 c _ hc]
      exact ih h
  | case3 c rest h1 h2 ih =>
      rw [wfB_match3 c _ h1 h2] at h
      rw [noDanglingTail_match3 c _ h1 h2]
      exact ih h
  | case4 c rest h1 h2 =>
      rw [wfB_nomatch c _ h1 (by simp [h2])] at h
      exact absurd h (by simp)
  | case5 c rest hrest hc ih =>
      rw [wfB_match2 c _ hc] at h
      rw [noDanglingTail_match2 c _ hc]
      exact ih h
  | case6 c rest hrest h1 =>
      have h2 : ¬ (isDigit19 c = true ∧ rest.head? = some 'n') := by
        rintro ⟨-, hh⟩
        cases rest with
        | nil => simp at hh
        | cons d r =>
            simp only [List.head?] at hh
            injection hh with hh
            exact hrest r (by rw [hh])
      rw [wfB_nomatch c _ h1 h2] at h
      exact absurd h (by simp)
  | case7 =>
      rw [show wfB ['%'] = false from by simp [wfB]] at h
      exact absurd h (by simp)
  | case8 c rest h1 h2 h3 ih =>
      have hc : ¬ c = '%' := by
        intro hceq
        cases rest with
        | nil => exact h3 hceq rfl
        | cons d r => exact h2 d r hceq rfl
      rw [wfB_lit c _ hc] at h
      rw [noDanglingTail_lit c _ hc]
      exact ih h

/-- On a well-formed template the compiled formatter renders exactly as
the one-shot formatter. -/
theorem newFormatter_eq_format (s : Str) (t : Time) (h : wfB s = true) :
    (NewFormatter s).Format t = Format s t := by
  show sprintfS (fmtScan placeholderFun (bqScan escFun s))
    ((collectFuns s).map (fun f => f t)) = Format s t
  rw [bqScan_wf s h]
  exact sprintf_skeleton_wf t s h

/-! ## Claim theorems -/

/-- C1 (counterexample): on the template `"%"` the one-shot formatter
returns `"%"` but the compiled formatter returns `"%!(NOVERB)"` — the
bare trailing `%` survives escaping unprotected and `Sprintf` rejects
it, so the two paths are not observably identical on every template. -/
theorem c1_oneshot_compiled_differ :
    Format (l "%") refTime = l "%"
      ∧ (NewFormatter (l "%")).Format refTime = l "%!(NOVERB)"
      ∧ (NewFormatter (l "%")).Format refTime ≠ Format (l "%") refTime := by
  refine ⟨by decide, by decide, by decide⟩

/-- C1 (amended): for every template in which each `%` begins a
recognized directive match (`%%`, `%`+letter, or `%[1-9]n`) and every
timestamp, the one-shot formatter and the compiled formatter produce
identical output: `Format(template, t) = NewFormatter(template).Format(t)`. -/
theorem c1_compiled_eq_oneshot (s : Str) (t : Time) (h : wfB s = true) :
    (NewFormatter s).Format t = Format s t :=
  newFormatter_eq_format s t h

/-- C1 (witness): the equivalence applied to the template `"%Y/%m"` at
the reference instant. -/
theorem c1_compiled_eq_oneshot_witness :
    wfB (l "%Y/%m") = true
      ∧ (NewFormatter (l "%Y/%m")).Format refTime
          = Format (l "%Y/%m") refTime :=
  ⟨by decide, c1_compiled_eq_oneshot (l "%Y/%m") refTime (by decide)⟩

/-- C2 (counterexample): on the template `"%1%2%3n"` the stored skeleton
is `"%%1%2%s"`, whose `fmt` parse consumes no `s` verb (the `%`
before `2` takes `2` as a width and the following `%` as its verb,
swallowing the placeholder's `%`), while one resolution function is
stored — the placeholder/function-count invariant fails. -/
theorem c2_skeleton_invariant_fails :
    (NewFormatter (l "%1%2%3n")).strFormat = l "%%1%2%s"
      ∧ sVerbCount (NewFormatter (l "%1%2%3n")).strFormat = 0
      ∧ (NewFormatter (l "%1%2%3n")).funs.length = 1
      ∧ sVerbCount (NewFormatter (l "%1%2%3n")).strFormat
          ≠ (NewFormatter (l "%1%2%3n")).funs.length := by
  refine ⟨by decide, by decide, by decide, by decide⟩

/-- C2 (amended): for every template in which each `%` begins a
recognized directive match, the number of `%s` placeholder verbs in the
stored skeleton equals the number of stored resolution functions; and
(for every template) the stored functions are exactly the non-`%%`
recognized matches of the template, in left-to-right template order. -/
theorem c2_skeleton_invariant (s : Str) (h : wfB s = true) :
    sVerbCount (NewFormatter s).strFormat = (NewFormatter s).funs.length
      ∧ (NewFormatter s).funs
          = ((fmtMatchesList s).filter (fun m => decide (¬ m = l "%%"))).map
              matchFun := by
  constructor
  · show sVerbCount (fmtScan placeholderFun (bqScan escFun s))
      = (collectFuns s).length
    rw [bqScan_wf s h]
    exact sVerbCount_skeleton_wf s h
  · exact collectFuns_eq_matches s

/-- C2 (witness): the invariant applied to the template `"%d of %B"`. -/
theorem c2_skeleton_invariant_witness :
    wfB (l "%d of %B") = true
      ∧ sVerbCount (NewFormatter (l "%d of %B")).strFormat
          = (NewFormatter (l "%d of %B")).funs.length :=
  ⟨by decide, (c2_skeleton_invariant (l "%d of %B") (by decide)).1⟩

/-- C5 (code bug): at 2009-12-31T23:59:59.999999999Z the code renders
`%j` as `"366"` — `Duration.Hours` rounds `8759 + (3599999999999 /
3600000000000)` up to the exact double `8760.0`, so the truncation
`int(Hours()/24)` yields 365 instead of 364 whole days — while the
specified number of whole 24-hour periods since midnight January 1 plus
one is 365 (2009 has 365 days).  The code's own documentation says `%j`
is the day of the year. -/
theorem c5_j_float_rounding_bug :
    Format (l "%j") yearEnd2009 = l "366"
      ∧ specDayOfYear yearEnd2009 = 365
      ∧ padZero 3 (specDayOfYear yearEnd2009) = l "365"
      ∧ Format (l "%j") refTime = l "314"
      ∧ specDayOfYear refTime = 314 := by
  refine ⟨by decide, by decide, by decide, by decide, by decide⟩

/-- C9: `FormatTo` renders via `Format` and performs exactly one sink
write of those bytes, returning the sink's byte count and error value
unchanged; the compiled `Formatter.FormatTo` likewise performs one write
of exactly `Formatter.Format`'s bytes.  Formatting itself returns a
plain string and has no error outcome. -/
theorem c9_formatTo_delegates (ε : Type) (write : Str → Nat × Option ε)
    (format : Str) (t : Time) :
    FormatTo write format t = write (Format format t)
      ∧ (FormatTo write format t).2 = (write (Format format t)).2
      ∧ (NewFormatter format).FormatTo write t
          = write ((NewFormatter format).Format t) :=
  ⟨rfl, rfl, rfl⟩

/-- C10: the one-shot formatter copies verbatim a `%` that does not
begin a recognized match, including a bare `%` at the end of the
template and a `%` followed by a digit `1`–`9` at the end; for any
template whose own scan consumes it completely (no dangling literal
`%`), appending these suffixes appends them verbatim to the output. -/
theorem c10_trailing_percent (s : Str) (t : Time)
    (h : noDanglingTail s = true) :
    Format (s ++ ['%']) t = Format s t ++ ['%']
      ∧ ∀ d : Char, isDigit19 d = true →
          Format (s ++ ['%', d]) t = Format s t ++ ['%', d] := by
  constructor
  · show fmtScan _ (s ++ ['%']) = _
    rw [fmtScan_append _ s ['%'] h (by simp)]
    rw [fmtScan_pcnil]
    rfl
  · intro d hd
    have hdp := digit_ne_pc d hd
    show fmtScan _ (s ++ ['%', d]) = _
    rw [fmtScan_append _ s ['%', d] h (by simp)]
    have hv : fmtScan (fun m => repl m t) ['%', d] = ['%', d] := by
      rw [fmtScan_nomatch _ d [] (by simp [hdp, digit_not_dirChar d hd])
        (by simp)]
      rw [fmtScan_lit _ d [] hdp]
      rfl
    rw [hv]
    rfl

/-- C3: every recognized single-letter directive rendered at the
reference instant 2009-11-10T23:01:02.000000003Z equals its documented
golden value. -/
theorem c3_golden_values :
    Format (l "%a") refTime = l "Tue"
      ∧ Format (l "%A") refTime = l "Tuesday"
      ∧ Format (l "%b") refTime = l "Nov"
      ∧ Format (l "%B") refTime = l "November"
      ∧ Format (l "%c") refTime = l "Tue, 10 Nov 2009 23:01:02 UTC"
      ∧ Format (l "%d") refTime = l "10"
      ∧ Format (l "%H") refTime = l "23"
      ∧ Format (l "%I") refTime = l "11"
      ∧ Format (l "%j") refTime = l "314"
      ∧ Format (l "%m") refTime = l "11"
      ∧ Format (l "%M") refTime = l "01"
      ∧ Format (l "%p") refTime = l "PM"
      ∧ Format (l "%S") refTime = l "02"
      ∧ Format (l "%U") refTime = l "45"
      ∧ Format (l "%w") refTime = l "2"
      ∧ Format (l "%W") refTime = l "45"
      ∧ Format (l "%x") refTime = l "11/10/09"
      ∧ Format (l "%X") refTime = l "23:01:02"
      ∧ Format (l "%y") refTime = l "09"
      ∧ Format (l "%Y") refTime = l "2009"
      ∧ Format (l "%Z") refTime = l "UTC" := by
  have hU : Format (l "%U") refTime = l "45" := by
    have e : Format (l "%U") refTime = weekNumberFormatter refTime ++ [] := rfl
    rw [e, weekNumberFormatter_refTime]
    rfl
  have hW : Format (l "%W") refTime = l "45" := by
    have e : Format (l "%W") refTime = weekNumberFormatter refTime ++ [] := rfl
    rw [e, weekNumberFormatter_refTime]
    rfl
  exact ⟨by decide, by decide, by decide, by decide, by decide, by decide,
    by decide, by decide, by decide, by decide, by decide, by decide,
    by decide, hU, by decide, hW, by decide, by decide, by decide,
    by decide, by decide⟩

/-- C4: `%U` and `%W` are bound to one and the same function
`weekNumberFormatter`, which renders, zero-padded to two digits, the
number of `WEEK` additions performed starting from January 1, 23:00:00
UTC of the timestamp's year until the accumulator is no longer before
the timestamp: after all its additions the accumulator is not before
the timestamp, and before each performed addition it still was. -/
theorem c4_week_number_directive :
    formatsLookup (l "%U") = some weekNumberFormatter
      ∧ formatsLookup (l "%W") = some weekNumberFormatter
      ∧ ∀ t : Time,
          weekNumberFormatter t
              = padZero 2 (weekLoop (janFirst t.year 23) (absNanos t))
            ∧ ¬ janFirst t.year 23
                  + (weekLoop (janFirst t.year 23) (absNanos t) : Int) * WEEK
                < absNanos t
            ∧ ∀ k : Nat, k < weekLoop (janFirst t.year 23) (absNanos t) →
                janFirst t.year 23 + (k : Int) * WEEK < absNanos t :=
  ⟨rfl, rfl, fun _ => ⟨rfl, (weekLoop_spec _ _).1, (weekLoop_spec _ _).2⟩⟩

/-- C4 (witness): the characterization applied at the reference
instant, with the inner bound discharged at `k = 0`. -/
theorem c4_week_number_directive_witness :
    weekNumberFormatter refTime
        = padZero 2 (weekLoop (janFirst refTime.year 23) (absNanos refTime))
      ∧ janFirst refTime.year 23 + ((0 : Nat) : Int) * WEEK
          < absNanos refTime := by
  refine ⟨(c4_week_number_directive.2.2 refTime).1, ?_⟩
  apply (c4_week_number_directive.2.2 refTime).2.2 0
  rw [weekLoop_refTime]
  decide

/-- `formatNano` without trimming is the truncation of the nine-digit
zero-padded decimal rendering. -/
theorem formatNano_take (u n : Nat) (h : n ≤ 9) :
    formatNano u n false = (specNineDigits u).take n := by
  have h9 : ¬ n > 9 := by omega
  simp [formatNano, h9, nanoDigits_spec]

/-- Rendering a `%[1-9]n` directive goes through `formatNanoForMatch`
with the width taken from the digit character. -/
theorem format_digit_n (t : Time) (d : Char)
    (h1 : ¬ (d = '%' || isDirectiveChar d) = true)
    (h2 : isDigit19 d = true)
    (hlk : formatsLookup ['%', d, 'n'] = none) :
    Format ['%', d, 'n'] t = formatNano t.nsec (d.toNat - 48) false := by
  show fmtScan _ ('%' :: d :: 'n' :: []) = _
  rw [fmtScan_match3 _ d [] h1 h2]
  show repl ['%', d, 'n'] t ++ [] = _
  rw [repl_nopc _ _ (by simp [l])]
  show matchFun ['%', d, 'n'] t ++ [] = _
  simp only [matchFun, hlk]
  simp [formatNanoForMatch]

/-- C6: the fractional-second directive `%Nn` renders the timestamp's
nanosecond component as exactly nine decimal digits left-padded with
zeros, truncated to its first `N` digits, without trimming trailing
zeros; a width above 9 is clamped to 9; and the golden values at the
reference instant (sub-second 3 ns) hold. -/
theorem c6_fractional_second :
    (∀ (t : Time) (n : Nat), 1 ≤ n → n ≤ 9 →
      Format ['%', Char.ofNat (48 + n), 'n'] t
        = (specNineDigits t.nsec).take n)
      ∧ (∀ u n : Nat, 9 < n → formatNano u n false = formatNano u 9 false)
      ∧ Format (l "%3n") refTime = l "000"
      ∧ Format (l "%6n") refTime = l "000000"
      ∧ Format (l "%9n") refTime = l "000000003" := by
  refine ⟨?_, ?_, by decide, by decide, by decide⟩
  · intro t n h1 h9
    interval_cases n <;>
      rw [format_digit_n t _ (by decide) (by decide) (by rfl),
        formatNano_take _ _ (by decide)] <;> rfl
  · intro u n h
    have h9 : n > 9 := h
    simp [formatNano, h9]

/-- C6 (witness): the truncation rule applied at the reference instant
with `N = 3`, and the clamp applied at width 12. -/
theorem c6_fractional_second_witness :
    (1 ≤ 3 ∧ 3 ≤ 9
      ∧ Format ['%', Char.ofNat (48 + 3), 'n'] refTime
          = (specNineDigits refTime.nsec).take 3)
      ∧ (9 < 12 ∧ formatNano 3 12 false = formatNano 3 9 false) :=
  ⟨⟨by decide, by decide,
      c6_fractional_second.1 refTime 3 (by decide) (by decide)⟩,
    ⟨by decide, c6_fractional_second.2.1 3 12 (by decide)⟩⟩

/-- C7 (counterexample): on the template `"%3%g"` the compiled path does
not reproduce the unknown directive `%g` byte-for-byte — the escaping
regexp consumes `%3%` (stealing the `%` of `%g`), the re-emitted
skeleton leaves `%g` unprotected, and `Sprintf` renders it as
`%!g(MISSING)`. -/
theorem c7_unknown_passthrough_fails :
    (NewFormatter (l "%3%g")).Format refTime = l "%3%!g(MISSING)"
      ∧ Format (l "%3%g") refTime = l "%3%g"
      ∧ (NewFormatter (l "%3%g")).Format refTime ≠ l "%3%g" := by
  refine ⟨by decide, by decide, by decide⟩

/-- C7 (amended): in the one-shot path a `%` followed by a character
outside the recognized set is always emitted byte-for-byte, with no
error (`Format` is a total function into strings); in the compiled path
this holds for `"%g"` (but not in general, e.g. after a stolen
`%digit%`). -/
theorem c7_unknown_passthrough :
    (∀ (u v : Str) (c : Char) (t : Time), noDanglingTail u = true →
      isDirectiveChar c = false → ¬ c = '%' →
      ¬ (isDigit19 c = true ∧ v.head? = some 'n') →
      Format (u ++ '%' :: c :: v) t = Format u t ++ '%' :: c :: Format v t)
      ∧ (∀ t : Time, Format (l "%g") t = l "%g")
      ∧ (∀ t : Time, (NewFormatter (l "%g")).Format t = l "%g") := by
  refine ⟨?_, fun t => rfl, fun t => rfl⟩
  intro u v c t hu hdir hpc hdv
  show fmtScan _ (u ++ '%' :: c :: v) = _
  rw [fmtScan_append _ u ('%' :: c :: v) hu (by simp)]
  rw [fmtScan_nomatch _ c v (by simp [hpc, hdir]) hdv]
  rw [fmtScan_lit _ c v hpc]
  rfl

/-- C7 (witness): pass-through of `%g` embedded between literals. -/
theorem c7_unknown_passthrough_witness :
    noDanglingTail (l "ab") = true
      ∧ isDirectiveChar 'g' = false
      ∧ Format (l "ab" ++ '%' :: 'g' :: l "cd") refTime
          = Format (l "ab") refTime ++ '%' :: 'g' :: Format (l "cd") refTime :=
  ⟨by decide, by decide,
    c7_unknown_passthrough.1 (l "ab") (l "cd") 'g' refTime
      (by decide) (by decide) (by decide) (by decide)⟩

/-- C8 (counterexample): on the template `"%1%2%%"` the compiled path
renders `"%1%%!(NOVERB)"` instead of the mandated `"%1%2%"` — in the
skeleton the stray `%` before `2` takes `2` as a width and the first
`%` of the doubled percent as its verb, leaving the second `%`
dangling — so `%%` does not render as a single `%` with its context
intact in both paths. -/
theorem c8_percent_literal_fails :
    Format (l "%1%2%%") refTime = l "%1%2%"
      ∧ (NewFormatter (l "%1%2%%")).Format refTime = l "%1%%!(NOVERB)"
      ∧ (NewFormatter (l "%1%2%%")).Format refTime ≠ l "%1%2%" := by
  refine ⟨by decide, by decide, by decide⟩

/-- C8 (amended): each scan occurrence of `%%` renders as a single `%`
in the one-shot path regardless of position; in the compiled path this
holds when the surrounding template is well-formed, and in both paths
on the cited examples `"%%%Y"` and `"%3%%"`. -/
theorem c8_percent_literal :
    (∀ (u v : Str) (t : Time), noDanglingTail u = true →
      Format (u ++ '%' :: '%' :: v) t = Format u t ++ '%' :: Format v t)
      ∧ (∀ (u v : Str) (t : Time), wfB u = true → wfB v = true →
          (NewFormatter (u ++ '%' :: '%' :: v)).Format t
            = Format u t ++ '%' :: Format v t)
      ∧ (Format (l "%%%Y") refTime = l "%2009"
          ∧ (NewFormatter (l "%%%Y")).Format refTime = l "%2009")
      ∧ (Format (l "%3%%") refTime = l "%3%"
          ∧ (NewFormatter (l "%3%%")).Format refTime = l "%3%") := by
  have part1 : ∀ (u v : Str) (t : Time), noDanglingTail u = true →
      Format (u ++ '%' :: '%' :: v) t = Format u t ++ '%' :: Format v t := by
    intro u v t hu
    show fmtScan _ (u ++ '%' :: '%' :: v) = _
    rw [fmtScan_append _ u ('%' :: '%' :: v) hu (by simp)]
    rw [fmtScan_match2 _ '%' v (by decide)]
    rfl
  refine ⟨part1, ?_, ⟨by decide, by decide⟩, ⟨by decide, by decide⟩⟩
  intro u v t hu hv
  have hw : wfB (u ++ '%' :: '%' :: v) = true := by
    have hpp : wfB ('%' :: '%' :: v) = true := by
      rw [wfB_match2 '%' v (by decide)]
      exact hv
    exact wfB_append u _ hu hpp
  rw [newFormatter_eq_format _ t hw]
  exact part1 u v t (wfB_noDangling u hu)

/-- C8 (witness): the one-shot and compiled `%%` equations applied with
well-formed surroundings at the reference instant. -/
theorem c8_percent_literal_witness :
    noDanglingTail (l "a") = true ∧ wfB (l "a") = true ∧ wfB (l "b") = true
      ∧ Format (l "a" ++ '%' :: '%' :: l "b") refTime
          = Format (l "a") refTime ++ '%' :: Format (l "b") refTime
      ∧ (NewFormatter (l "a" ++ '%' :: '%' :: l "b")).Format refTime
          = Format (l "a") refTime ++ '%' :: Format (l "b") refTime :=
  ⟨by decide, by decide, by decide,
    c8_percent_literal.1 (l "a") (l "b") refTime (by decide),
    c8_percent_literal.2.1 (l "a") (l "b") refTime (by decide) (by decide)⟩

/-- C10 (witness): appending `"%"` and `"%5"` to the template `"abc"`
at the reference instant. -/
theorem c10_trailing_percent_witness :
    noDanglingTail (l "abc") = true
      ∧ Format (l "abc" ++ ['%']) refTime = Format (l "abc") refTime ++ ['%']
      ∧ isDigit19 '5' = true
      ∧ Format (l "abc" ++ ['%', '5']) refTime
          = Format (l "abc") refTime ++ ['%', '5'] :=
  ⟨by decide, (c10_trailing_percent (l "abc") refTime (by decide)).1,
    by decide,
    (c10_trailing_percent (l "abc") refTime (by decide)).2 '5' (by decide)⟩

end GoStrftime

